import Mathlib

/-!
Verification of the WeiBo_Latest ingestion-and-enrichment pipeline.

Each definition is a shallow embedding of a function of the repository:

* `src/backend/backend/risk_model.py`  — risk model (clamp, the four dimension
  scores, the weighted aggregate, tier and tier segments);
* `src/spider/rate_limiter.py`        — `RateLimitPolicy` backoff/cooldown state machine;
* `src/spider/cookie_pool.py`         — `CookiePool` credential rotation;
* `src/spider/monitor_remote_hot_topics.py` — fetch-with-fallback timing policy;
* `src/spider/fetch_hot_topics.py`    — daily-archive `upsert_topic` merge;
* `src/backend/scheduler.py`          — enrichment candidate dedup / top-K selection.

Python floats are embedded as real numbers (`ℝ`) in the risk model, where the
transcendental `log10` appears, and as rationals (`ℚ`) elsewhere, so that the
state machines stay executable.  Python `None` becomes `Option.none`; a missing
dictionary key and a key stored with value `None` are identified (the source
reads every such field through `dict.get`, which does not distinguish them).
Randomness (`random.uniform`) is embedded by passing the sampled value as an
explicit argument, constrained to the sampling interval by a hypothesis.
-/

/-! ## Risk model — src/backend/backend/risk_model.py and src/backend/config.py -/

/-- Python `clamp(v, lo=0.0, hi=100.0) = max(lo, min(hi, v))`.  Call sites all
use the defaults, written explicitly here. -/
noncomputable def clamp (v lo hi : ℝ) : ℝ := max lo (min hi v)

/-- `calc_negativity`: sentiment -1 (most negative) maps to 100, +1 to 0. -/
noncomputable def calc_negativity (sentiment : ℝ) : ℝ :=
  clamp (((-sentiment + 1) / 2) * 100) 0 100

/-- `calc_growth(current_hot, prev_hot)`: 50 when either argument is `None`,
100 when `prev_hot <= 0`, otherwise `clamp(50 + 50 * max(-1, min(1, (c-p)/p)))`. -/
noncomputable def calc_growth (current_hot prev_hot : Option ℝ) : ℝ :=
  match current_hot, prev_hot with
  | some c, some p =>
      if p ≤ 0 then 100
      else clamp (50 + 50 * max (-1) (min 1 ((c - p) / p))) 0 100
  | _, _ => 50

/-- `HIGH_SENSITIVE` category set from `src/backend/config.py`. -/
def HIGH_SENSITIVE : List String := ["时政", "社会", "财经", "军事", "教育"]

/-- `MEDIUM_SENSITIVE` category set from `src/backend/config.py`. -/
def MEDIUM_SENSITIVE : List String :=
  ["科技", "健康", "文化", "能源", "交通", "农业", "公益"]

/-- `calc_sensitivity(topic_type)`: 85 / 60 / 40 by sensitivity class. -/
noncomputable def calc_sensitivity (topic_type : String) : ℝ :=
  if topic_type ∈ HIGH_SENSITIVE then 85
  else if topic_type ∈ MEDIUM_SENSITIVE then 60
  else 40

/-- One post with its three engagement counters (`reposts`, `comments`, `likes`;
missing counters default to 0 in the source, so they are plain integers here). -/
structure Post where
  reposts : ℤ
  comments : ℤ
  likes : ℤ
deriving DecidableEq

/-- Total engagement summed over the posts, as in the loop of `calc_crowd`. -/
def postTotal (posts : List Post) : ℤ :=
  (posts.map fun p => p.reposts + p.comments + p.likes).sum

/-- `calc_crowd(posts)`: 20 when total engagement is ≤ 0, otherwise
`clamp(min(100, 20 + 20 * log10(1 + total)))`. -/
noncomputable def calc_crowd (posts : List Post) : ℝ :=
  if postTotal posts ≤ 0 then 20
  else clamp (min 100 (20 + 20 * Real.logb 10 (1 + (postTotal posts : ℝ)))) 0 100

/-- `RISK_WEIGHTS` from `src/backend/config.py`, in dict insertion order. -/
noncomputable def RISK_WEIGHTS : List (String × ℝ) :=
  [("negativity", 0.35), ("growth", 0.25), ("sensitivity", 0.20), ("crowd", 0.20)]

/-- `aggregate_score(dims)`: `clamp(Σ w_k * clamp(dims.get(k, 0.0)))` folded over
`RISK_WEIGHTS`.  The dimension mapping is a partial map from key to value. -/
noncomputable def aggregate_score (dims : String → Option ℝ) : ℝ :=
  clamp (RISK_WEIGHTS.foldl (fun s kw => s + kw.2 * clamp ((dims kw.1).getD 0) 0 100) 0) 0 100

/-- `risk_level_from_score(score)`: `float(score or 0.0)` is clamped, then
`high` at ≥ 50, `mid` at ≥ 20, else `low`. -/
noncomputable def risk_level_from_score (score : Option ℝ) : String :=
  let normalized := clamp (score.getD 0) 0 100
  if 50 ≤ normalized then "high"
  else if 20 ≤ normalized then "mid"
  else "low"

/-- The three visualization buckets returned by `risk_tier_segments`. -/
structure RiskSegments where
  low : ℝ
  mid : ℝ
  high : ℝ

/-- `risk_tier_segments(score)`: all buckets 0 except the one named by
`risk_level_from_score(normalized)`, which receives the clamped score. -/
noncomputable def risk_tier_segments (score : Option ℝ) : RiskSegments :=
  let normalized := clamp (score.getD 0) 0 100
  let level := risk_level_from_score (some normalized)
  if level = "high" then ⟨0, 0, normalized⟩
  else if level = "mid" then ⟨0, normalized, 0⟩
  else ⟨normalized, 0, 0⟩

/-- The Scenario-D post list: one post with engagement 10 + 10 + 20 = 40. -/
def scenarioPosts : List Post := [⟨10, 10, 20⟩]

/-- The Scenario-D dimension mapping produced by the four dimension functions at
sentiment −0.8, category 时政, heat 150 vs 100, engagement 40. -/
noncomputable def scenarioDims : String → Option ℝ := fun k =>
  if k = "negativity" then some (calc_negativity (-0.8))
  else if k = "growth" then some (calc_growth (some 150) (some 100))
  else if k = "sensitivity" then some (calc_sensitivity "时政")
  else if k = "crowd" then some (calc_crowd scenarioPosts)
  else none

theorem clamp_nonneg (v : ℝ) : 0 ≤ clamp v 0 100 := le_max_left 0 _

theorem clamp_le_hundred (v : ℝ) : clamp v 0 100 ≤ 100 :=
  max_le (by norm_num) (min_le_left _ _)

theorem clamp_of_mem (v : ℝ) (h0 : 0 ≤ v) (h1 : v ≤ 100) : clamp v 0 100 = v := by
  unfold clamp
  rw [min_eq_right h1, max_eq_right h0]

theorem logb_ten_fortyone_gt : (1.61 : ℝ) < Real.logb 10 41 := by
  have hlog10 : (0 : ℝ) < Real.log 10 := Real.log_pos (by norm_num)
  have hpow : ((10 : ℝ) ^ (161 : ℕ)) < ((41 : ℝ) ^ (100 : ℕ)) := by norm_num
  have h1 : Real.log ((10 : ℝ) ^ (161 : ℕ)) < Real.log ((41 : ℝ) ^ (100 : ℕ)) :=
    Real.log_lt_log (by positivity) hpow
  rw [Real.log_pow, Real.log_pow] at h1
  rw [Real.logb, lt_div_iff₀ hlog10]
  push_cast at h1
  linarith

theorem logb_ten_fortyone_lt : Real.logb 10 41 < (1.62 : ℝ) := by
  have hlog10 : (0 : ℝ) < Real.log 10 := Real.log_pos (by norm_num)
  have hpow : ((41 : ℝ) ^ (100 : ℕ)) < ((10 : ℝ) ^ (162 : ℕ)) := by norm_num
  have h1 : Real.log ((41 : ℝ) ^ (100 : ℕ)) < Real.log ((10 : ℝ) ^ (162 : ℕ)) :=
    Real.log_lt_log (by positivity) hpow
  rw [Real.log_pow, Real.log_pow] at h1
  rw [Real.logb, div_lt_iff₀ hlog10]
  push_cast at h1
  linarith

theorem scenario_crowd_eq :
    calc_crowd scenarioPosts = 20 + 20 * Real.logb 10 41 := by
  have hgt := logb_ten_fortyone_gt
  have hlt := logb_ten_fortyone_lt
  have htot : postTotal scenarioPosts = 40 := by decide
  unfold calc_crowd
  rw [htot]
  norm_num
  rw [min_eq_right (by nlinarith), clamp_of_mem _ (by nlinarith) (by nlinarith)]

theorem scenario_crowd_bounds :
    52.2 < calc_crowd scenarioPosts ∧ calc_crowd scenarioPosts < 52.4 := by
  rw [scenario_crowd_eq]
  constructor
  · nlinarith [logb_ten_fortyone_gt]
  · nlinarith [logb_ten_fortyone_lt]

theorem scenario_growth : calc_growth (some 150) (some 100) = 75 := by
  have h : calc_growth (some 150) (some 100)
      = clamp (50 + 50 * max (-1) (min 1 (((150 : ℝ) - 100) / 100))) 0 100 := by
    simp only [calc_growth]
    rw [if_neg (by norm_num)]
  rw [h]
  rw [show ((150 : ℝ) - 100) / 100 = 0.5 by norm_num]
  rw [show min (1 : ℝ) 0.5 = 0.5 by norm_num, show max (-1 : ℝ) 0.5 = 0.5 by norm_num]
  rw [show (50 : ℝ) + 50 * 0.5 = 75 by norm_num]
  exact clamp_of_mem _ (by norm_num) (by norm_num)

theorem scenario_sensitivity : calc_sensitivity "时政" = 85 := by
  unfold calc_sensitivity
  rw [if_pos (by decide)]

theorem scenario_negativity : calc_negativity (-0.8) = 90 := by
  unfold calc_negativity
  rw [show ((-(-0.8 : ℝ) + 1) / 2) * 100 = 90 by norm_num]
  exact clamp_of_mem _ (by norm_num) (by norm_num)

theorem scenario_aggregate_bounds :
    77.69 < aggregate_score scenarioDims ∧ aggregate_score scenarioDims < 77.73 := by
  obtain ⟨hc1, hc2⟩ := scenario_crowd_bounds
  have hd1 : scenarioDims "negativity" = some (calc_negativity (-0.8)) := rfl
  have hd2 : scenarioDims "growth" = some (calc_growth (some 150) (some 100)) := rfl
  have hd3 : scenarioDims "sensitivity" = some (calc_sensitivity "时政") := rfl
  have hd4 : scenarioDims "crowd" = some (calc_crowd scenarioPosts) := rfl
  have hunfold : aggregate_score scenarioDims
      = clamp (0 + 0.35 * clamp ((scenarioDims "negativity").getD 0) 0 100
          + 0.25 * clamp ((scenarioDims "growth").getD 0) 0 100
          + 0.20 * clamp ((scenarioDims "sensitivity").getD 0) 0 100
          + 0.20 * clamp ((scenarioDims "crowd").getD 0) 0 100) 0 100 := by
    simp only [aggregate_score, RISK_WEIGHTS, List.foldl_cons, List.foldl_nil]
  rw [hunfold, hd1, hd2, hd3, hd4]
  simp only [Option.getD_some]
  rw [scenario_negativity, scenario_growth, scenario_sensitivity]
  rw [clamp_of_mem (90 : ℝ) (by norm_num) (by norm_num),
      clamp_of_mem (75 : ℝ) (by norm_num) (by norm_num),
      clamp_of_mem (85 : ℝ) (by norm_num) (by norm_num),
      clamp_of_mem (calc_crowd scenarioPosts) (by linarith) (by linarith)]
  have hin : (0 : ℝ) + 0.35 * 90 + 0.25 * 75 + 0.20 * 85 + 0.20 * calc_crowd scenarioPosts
      = 67.25 + 0.20 * calc_crowd scenarioPosts := by ring
  rw [hin, clamp_of_mem _ (by linarith) (by linarith)]
  constructor <;> linarith

/-- Claim C2 (counterexample): at the Scenario-D inputs the weighted aggregate
of the four dimension scores is not 74.8 (it lies strictly above 77.69). -/
theorem c2_aggregate_ne : aggregate_score scenarioDims ≠ (74.8 : ℝ) := by
  obtain ⟨h1, _⟩ := scenario_aggregate_bounds
  intro h
  rw [h] at h1
  norm_num at h1

/-- Claim C2 (amended): for sentiment −0.8, category 时政, heat 150 vs 100 and
total engagement 40: growth = 75, sensitivity = 85, negativity = 90,
crowd = 20 + 20·log10(41) ∈ (52.2, 52.4) (≈ 52.26, not ≈ 52.8), the weighted
aggregate lies in (77.69, 77.73) (≈ 77.71, not 74.8), and the tier is high. -/
theorem c2_scenario_d :
    calc_growth (some 150) (some 100) = 75 ∧
    calc_sensitivity "时政" = 85 ∧
    calc_negativity (-0.8) = 90 ∧
    calc_crowd scenarioPosts = 20 + 20 * Real.logb 10 41 ∧
    52.2 < calc_crowd scenarioPosts ∧ calc_crowd scenarioPosts < 52.4 ∧
    77.69 < aggregate_score scenarioDims ∧ aggregate_score scenarioDims < 77.73 ∧
    risk_level_from_score (some (aggregate_score scenarioDims)) = "high" := by
  obtain ⟨ha1, ha2⟩ := scenario_aggregate_bounds
  obtain ⟨hc1, hc2⟩ := scenario_crowd_bounds
  refine ⟨scenario_growth, scenario_sensitivity, scenario_negativity,
    scenario_crowd_eq, hc1, hc2, ha1, ha2, ?_⟩
  have hcl : clamp (aggregate_score scenarioDims) 0 100 = aggregate_score scenarioDims :=
    clamp_of_mem _ (by linarith) (by linarith)
  unfold risk_level_from_score
  simp only [Option.getD_some, hcl]
  rw [if_pos (by linarith)]

/-- Claim C8: `calc_negativity` always lands in [0,100] with the stated endpoint
values, and `aggregate_score` lands in [0,100] for every dimension mapping.
(Both hold for all real inputs, which subsumes sentiment ∈ [-1,1].) -/
theorem risk_model_bounds :
    (∀ s : ℝ, 0 ≤ calc_negativity s ∧ calc_negativity s ≤ 100) ∧
    calc_negativity (-1) = 100 ∧
    calc_negativity 1 = 0 ∧
    (∀ dims : String → Option ℝ, 0 ≤ aggregate_score dims ∧ aggregate_score dims ≤ 100) := by
  refine ⟨fun s => ⟨clamp_nonneg _, clamp_le_hundred _⟩, ?_, ?_, fun dims => ⟨clamp_nonneg _, clamp_le_hundred _⟩⟩
  · unfold calc_negativity
    rw [show ((-(-1 : ℝ) + 1) / 2) * 100 = 100 by norm_num]
    exact clamp_of_mem _ (by norm_num) (by norm_num)
  · unfold calc_negativity
    rw [show ((-(1 : ℝ) + 1) / 2) * 100 = 0 by norm_num]
    exact clamp_of_mem _ (by norm_num) (by norm_num)

theorem risk_level_high_iff (s : ℝ) :
    risk_level_from_score (some s) = "high" ↔ 50 ≤ clamp s 0 100 := by
  unfold risk_level_from_score
  simp only [Option.getD_some]
  by_cases h : 50 ≤ clamp s 0 100
  · rw [if_pos h]; simp [h]
  · rw [if_neg h]
    constructor
    · intro hcontr
      by_cases h2 : 20 ≤ clamp s 0 100 <;> simp [h2] at hcontr
    · intro hcontr; exact absurd hcontr h

/-- Claim C3 (counterexample): at score 0 every bucket of `risk_tier_segments`
is zero, so there is no non-zero bucket at all; and at score 150 the single
non-zero bucket holds the clamped value 100, not the score 150. -/
theorem c3_segments_cex :
    (risk_tier_segments (some 0)).low = 0 ∧
    (risk_tier_segments (some 0)).mid = 0 ∧
    (risk_tier_segments (some 0)).high = 0 ∧
    (risk_tier_segments (some 150)).high = 100 ∧
    ((100 : ℝ) ≠ 150) := by
  have h0 : clamp (0 : ℝ) 0 100 = 0 := clamp_of_mem _ le_rfl (by norm_num)
  have h150 : clamp (150 : ℝ) 0 100 = 100 := by
    unfold clamp
    rw [min_eq_left (by norm_num), max_eq_right (by norm_num)]
  refine ⟨?_, ?_, ?_, ?_, by norm_num⟩
  · unfold risk_tier_segments risk_level_from_score
    simp only [Option.getD_some, h0, clamp_of_mem (0 : ℝ) le_rfl (by norm_num)]
    norm_num
  · unfold risk_tier_segments risk_level_from_score
    simp only [Option.getD_some, h0, clamp_of_mem (0 : ℝ) le_rfl (by norm_num)]
    norm_num
  · unfold risk_tier_segments risk_level_from_score
    simp only [Option.getD_some, h0, clamp_of_mem (0 : ℝ) le_rfl (by norm_num)]
    norm_num
  · unfold risk_tier_segments risk_level_from_score
    simp only [Option.getD_some, h150, clamp_of_mem (100 : ℝ) (by norm_num) le_rfl]
    norm_num

/-- Claim C3 (amended): writing n = clamp(s, 0, 100) for the normalized score,
`risk_tier_segments` puts n into exactly the bucket named by the tier of n
(high iff n ≥ 50, mid iff 20 ≤ n < 50, low otherwise) and zeroes the other two;
whenever n > 0 (in particular for every score 0 < s ≤ 100, where n = s) this is
the unique non-zero bucket and it equals n. -/
theorem risk_tier_segments_spec (s : ℝ) (hpos : 0 < clamp s 0 100) :
    (50 ≤ clamp s 0 100 →
      risk_tier_segments (some s) = ⟨0, 0, clamp s 0 100⟩ ∧
      risk_level_from_score (some s) = "high") ∧
    (20 ≤ clamp s 0 100 → clamp s 0 100 < 50 →
      risk_tier_segments (some s) = ⟨0, clamp s 0 100, 0⟩ ∧
      risk_level_from_score (some s) = "mid") ∧
    (clamp s 0 100 < 20 →
      risk_tier_segments (some s) = ⟨clamp s 0 100, 0, 0⟩ ∧
      risk_level_from_score (some s) = "low") ∧
    clamp s 0 100 ≠ 0 := by
  have hcc : clamp (clamp s 0 100) 0 100 = clamp s 0 100 :=
    clamp_of_mem _ (clamp_nonneg s) (clamp_le_hundred s)
  refine ⟨?_, ?_, ?_, ne_of_gt hpos⟩
  · intro h50
    have hlvl : risk_level_from_score (some s) = "high" := by
      unfold risk_level_from_score
      simp only [Option.getD_some]
      rw [if_pos h50]
    have hlv2 : risk_level_from_score (some (clamp s 0 100)) = "high" := by
      unfold risk_level_from_score
      simp only [Option.getD_some, hcc]
      rw [if_pos h50]
    refine ⟨?_, hlvl⟩
    unfold risk_tier_segments
    simp [hlv2]
  · intro h20 h50
    have hlvl : risk_level_from_score (some s) = "mid" := by
      unfold risk_level_from_score
      simp only [Option.getD_some]
      rw [if_neg (by linarith), if_pos h20]
    have hlv2 : risk_level_from_score (some (clamp s 0 100)) = "mid" := by
      unfold risk_level_from_score
      simp only [Option.getD_some, hcc]
      rw [if_neg (by linarith), if_pos h20]
    refine ⟨?_, hlvl⟩
    unfold risk_tier_segments
    simp [hlv2]
  · intro h20
    have hlvl : risk_level_from_score (some s) = "low" := by
      unfold risk_level_from_score
      simp only [Option.getD_some]
      rw [if_neg (by linarith), if_neg (by linarith)]
    have hlv2 : risk_level_from_score (some (clamp s 0 100)) = "low" := by
      unfold risk_level_from_score
      simp only [Option.getD_some, hcc]
      rw [if_neg (by linarith), if_neg (by linarith)]
    refine ⟨?_, hlvl⟩
    unfold risk_tier_segments
    simp [hlv2]

/-- Claim C3 witness: the amended segment property instantiated at score 30
(mid tier, unique non-zero bucket 30). -/
theorem risk_tier_segments_spec_witness :
    risk_tier_segments (some 30) = ⟨0, clamp 30 0 100, 0⟩ ∧
    risk_level_from_score (some 30) = "mid" := by
  have h30 : clamp (30 : ℝ) 0 100 = 30 := clamp_of_mem _ (by norm_num) (by norm_num)
  exact (risk_tier_segments_spec 30 (by rw [h30]; norm_num)).2.1
    (by rw [h30]; norm_num) (by rw [h30]; norm_num)

/-! ## Rate-limit policy — src/spider/rate_limiter.py

Time (`time.monotonic()`) and the `random.uniform` draws are passed as explicit
arguments.  Each mutating method returns its Python return value paired with
the successor state. -/

/-- Cooldown severity, the `level` string of the source (`soft` / `hard`). -/
inductive CooldownLevel
  | soft
  | hard
deriving DecidableEq

/-- The `CooldownInfo` dataclass. -/
structure CooldownInfo where
  level : CooldownLevel
  duration : ℚ
deriving DecidableEq

/-- The mutable state of `RateLimitPolicy` (configuration plus counters).
`soft_hits` is the deque of soft-cooldown timestamps, oldest first. -/
structure RateLimitPolicy where
  base_delay : ℚ
  jitter : ℚ
  max_backoff_attempts : ℕ
  soft_range : ℚ × ℚ
  hard_range : ℚ × ℚ
  cooldown_window : ℚ
  soft_threshold : ℕ
  attempts : ℕ
  cooldown_until : Option ℚ
  cooldown_level : Option CooldownLevel
  last_failure_ts : Option ℚ
  soft_hits : List ℚ
deriving DecidableEq

/-- `RateLimitPolicy.__init__` with the source's normalizations
(`max(0.1, base_delay)`, `max(1, max_backoff_attempts)`,
`max(soft_range[0], cooldown_window)`, `max(1, soft_threshold)`). -/
def mkRateLimitPolicy (base_delay jitter : ℚ) (max_backoff_attempts : ℕ)
    (soft_range hard_range : ℚ × ℚ) (cooldown_window : ℚ) (soft_threshold : ℕ) :
    RateLimitPolicy where
  base_delay := max 0.1 base_delay
  jitter := max 0 jitter
  max_backoff_attempts := max 1 max_backoff_attempts
  soft_range := soft_range
  hard_range := hard_range
  cooldown_window := max soft_range.1 cooldown_window
  soft_threshold := max 1 soft_threshold
  attempts := 0
  cooldown_until := none
  cooldown_level := none
  last_failure_ts := none
  soft_hits := []

/-- A policy built with all constructor defaults
(`base_delay=5.0, jitter=0.2, max_backoff_attempts=3, soft_range=(300,900),
hard_range=(1800,3600), cooldown_window=3600, soft_threshold=2`). -/
def defaultPolicy : RateLimitPolicy :=
  mkRateLimitPolicy 5 0.2 3 (300, 900) (1800, 3600) 3600 2

/-- `_prune_soft_hits`: pop timestamps from the front while they fall before
`now - cooldown_window`. -/
def prune_soft_hits (p : RateLimitPolicy) (now : ℚ) : RateLimitPolicy :=
  { p with soft_hits := p.soft_hits.dropWhile fun t => t < now - p.cooldown_window }

/-- `_enter_cooldown("hard")`: sample from `hard_range` (the sampled value
`hardDraw` is an argument), clear the soft-hit history, start the cooldown. -/
def enterHardCooldown (p : RateLimitPolicy) (now hardDraw : ℚ) :
    CooldownInfo × RateLimitPolicy :=
  (⟨.hard, hardDraw⟩,
    { p with soft_hits := [], cooldown_until := some (now + hardDraw),
             cooldown_level := some .hard, attempts := 0 })

/-- `_enter_cooldown("soft")`: sample from `soft_range` (argument `softDraw`),
append `now` to the soft hits, prune, and escalate to a hard cooldown when the
hit count reaches `soft_threshold`. -/
def enterSoftCooldown (p : RateLimitPolicy) (now softDraw hardDraw : ℚ) :
    CooldownInfo × RateLimitPolicy :=
  let p1 := prune_soft_hits { p with soft_hits := p.soft_hits ++ [now] } now
  if p1.soft_threshold ≤ p1.soft_hits.length then
    enterHardCooldown p1 now hardDraw
  else
    (⟨.soft, softDraw⟩,
      { p1 with cooldown_until := some (now + softDraw),
                cooldown_level := some .soft, attempts := 0 })

/-- `record_failure()`: stamp the failure time; while `attempts` is below
`max_backoff_attempts` return `None`, otherwise enter a soft cooldown. -/
def record_failure (p : RateLimitPolicy) (now softDraw hardDraw : ℚ) :
    Option CooldownInfo × RateLimitPolicy :=
  let p1 := { p with last_failure_ts := some now }
  if p1.attempts < p1.max_backoff_attempts then (none, p1)
  else
    let r := enterSoftCooldown p1 now softDraw hardDraw
    (some r.1, r.2)

/-- `record_success()`: reset attempts, clear the failure stamp, prune hits. -/
def record_success (p : RateLimitPolicy) (now : ℚ) : RateLimitPolicy :=
  prune_soft_hits { p with attempts := 0, last_failure_ts := none } now

/-- `in_cooldown()`: `(False, 0)` with the cooldown cleared when expired,
`(True, remaining)` while `cooldown_until` lies in the future. -/
def in_cooldown (p : RateLimitPolicy) (now : ℚ) :
    (Bool × ℚ) × RateLimitPolicy :=
  match p.cooldown_until with
  | none => ((false, 0), p)
  | some u =>
      if u - now ≤ 0 then
        ((false, 0), { p with cooldown_until := none, cooldown_level := none })
      else ((true, u - now), p)

/-- `next_delay()`: exponential delay with multiplicative jitter (the sampled
factor `jitterDraw` is an argument); this is the only method that increments
the attempt counter. -/
def next_delay (p : RateLimitPolicy) (jitterDraw : ℚ) : ℚ × RateLimitPolicy :=
  let e := min p.attempts (p.max_backoff_attempts - 1)
  let delay := p.base_delay * 2 ^ e
  let jitter_factor := if p.jitter ≠ 0 then jitterDraw else 1
  (max (delay * jitter_factor) 0, { p with attempts := p.attempts + 1 })

/-- Fold `record_failure` over a list of `(now, softDraw, hardDraw)` triples. -/
def record_failures (p : RateLimitPolicy) (l : List (ℚ × ℚ × ℚ)) : RateLimitPolicy :=
  l.foldl (fun q x => (record_failure q x.1 x.2.1 x.2.2).2) p

theorem record_failures_no_cooldown (l : List (ℚ × ℚ × ℚ)) (p : RateLimitPolicy)
    (h : p.attempts < p.max_backoff_attempts) :
    (record_failures p l).cooldown_until = p.cooldown_until ∧
    (record_failures p l).attempts = p.attempts ∧
    (record_failures p l).max_backoff_attempts = p.max_backoff_attempts := by
  induction l generalizing p with
  | nil => exact ⟨rfl, rfl, rfl⟩
  | cons x xs ih =>
      have hstep : (record_failure p x.1 x.2.1 x.2.2).2
          = { p with last_failure_ts := some x.1 } := by
        unfold record_failure
        rw [if_pos h]
      have hfold : record_failures p (x :: xs)
          = record_failures (record_failure p x.1 x.2.1 x.2.2).2 xs := rfl
      rw [hfold, hstep]
      exact ih _ h

theorem record_failure_enters_soft (p : RateLimitPolicy) (now sd hd : ℚ)
    (hatt : ¬ p.attempts < p.max_backoff_attempts)
    (hhits : p.soft_hits = [])
    (hthr : 2 ≤ p.soft_threshold)
    (hwin : 0 ≤ p.cooldown_window) :
    record_failure p now sd hd
      = (some ⟨.soft, sd⟩,
         { p with last_failure_ts := some now, soft_hits := [now],
                  cooldown_until := some (now + sd),
                  cooldown_level := some .soft, attempts := 0 }) := by
  unfold record_failure
  rw [if_neg hatt]
  unfold enterSoftCooldown prune_soft_hits enterHardCooldown
  simp only [hhits, List.nil_append]
  rw [List.dropWhile_cons_of_neg (by simp only [decide_eq_true_eq, not_lt]; linarith)]
  rw [if_neg (by simp only [List.length_cons, List.length_nil]; omega)]

/-- The policy state reached from a fresh default policy by three consecutive
`record_failure` calls at times 0, 1, 2 (soft draw 300, hard draw 1800). -/
def c1CexState : RateLimitPolicy :=
  record_failures defaultPolicy [(0, 300, 1800), (1, 300, 1800), (2, 300, 1800)]

/-- Claim C1 (counterexample): on a freshly constructed default policy
(`max_backoff_attempts = 3`), three consecutive `record_failure()` calls with
no intervening `next_delay()` do NOT put the policy in cooldown —
`record_failure` never increments the attempt counter, so `in_cooldown()`
still reports false and no cooldown level is set. -/
theorem c1_no_cooldown_after_failures_cex :
    (in_cooldown c1CexState 2).1.1 = false ∧
    c1CexState.cooldown_until = none ∧
    c1CexState.cooldown_level = none ∧
    c1CexState.attempts = 0 := by
  refine ⟨?_, ?_, ?_, ?_⟩ <;> rfl

/-- Claim C1 (amended): `record_failure()` does not advance the attempt
counter — only `next_delay()` does — so a fresh policy subjected to any
sequence of `record_failure()` calls alone never enters cooldown; once the
attempt counter has reached `max_backoff_attempts` via three `next_delay()`
calls, the next `record_failure()` enters a cooldown of level soft whose
duration is the value sampled from the soft range, and `in_cooldown()` then
reports true with that (positive) remaining duration. -/
theorem rate_limit_soft_cooldown (softDraw hardDraw j1 j2 j3 t : ℚ)
    (hlo : 300 ≤ softDraw) (hhi : softDraw ≤ 900) :
    (∀ l : List (ℚ × ℚ × ℚ),
        (record_failures defaultPolicy l).cooldown_until = none ∧
        ∀ t2 : ℚ, (in_cooldown (record_failures defaultPolicy l) t2).1.1 = false) ∧
    (let p3 := (next_delay ((next_delay ((next_delay defaultPolicy j1).2) j2).2) j3).2
     let r := record_failure p3 t softDraw hardDraw
     r.1 = some ⟨.soft, softDraw⟩ ∧
     r.2.cooldown_level = some .soft ∧
     (in_cooldown r.2 t).1 = (true, softDraw) ∧
     0 < softDraw ∧
     defaultPolicy.soft_range.1 ≤ softDraw ∧ softDraw ≤ defaultPolicy.soft_range.2) := by
  constructor
  · intro l
    have h := record_failures_no_cooldown l defaultPolicy (by decide)
    refine ⟨h.1, fun t2 => ?_⟩
    unfold in_cooldown
    rw [h.1]
    rfl
  · intro p3 r
    have hrf : r = record_failure p3 t softDraw hardDraw := rfl
    have hatt : ¬ p3.attempts < p3.max_backoff_attempts := by
      have h1 : p3.attempts = 3 := rfl
      have h2 : p3.max_backoff_attempts = 3 := rfl
      rw [h1, h2]
      decide
    have hthr : 2 ≤ p3.soft_threshold := by
      have h1 : p3.soft_threshold = 2 := rfl
      rw [h1]
    have hwin : 0 ≤ p3.cooldown_window := by
      have h1 : p3.cooldown_window = max 300 3600 := rfl
      rw [h1]
      exact le_trans (by norm_num) (le_max_left 300 3600)
    have h := record_failure_enters_soft p3 t softDraw hardDraw hatt rfl hthr hwin
    rw [hrf, h]
    refine ⟨rfl, rfl, ?_, by linarith, hlo, hhi⟩
    unfold in_cooldown
    simp only
    rw [if_neg (by push_neg; linarith)]
    have hd : t + softDraw - t = softDraw := by ring
    rw [hd]

/-- Claim C1 witness: the amended statement instantiated with soft draw 300 at
time 0 — after three `next_delay` calls the fourth failure enters a soft
cooldown of 300 seconds, while pure `record_failure` sequences leave
`cooldown_until` empty. -/
theorem rate_limit_soft_cooldown_witness :
    ((record_failures defaultPolicy [(0, 300, 1800)]).cooldown_until = none) ∧
    (let p3 := (next_delay ((next_delay ((next_delay defaultPolicy 1).2) 1).2) 1).2
     let r := record_failure p3 0 300 1800
     r.1 = some ⟨.soft, 300⟩ ∧ (in_cooldown r.2 0).1 = (true, 300)) := by
  have h := rate_limit_soft_cooldown 300 1800 1 1 1 0 (by norm_num) (by norm_num)
  exact ⟨(h.1 [(0, 300, 1800)]).1, h.2.1, h.2.2.2.1⟩

/-- Claim C7: with the default `soft_threshold` of 2, entering a soft cooldown
while one earlier soft hit is still inside the rolling `cooldown_window`
escalates: `_enter_cooldown("soft")` recurses into `_enter_cooldown("hard")`,
so the cooldown actually entered has level hard, its duration is the value
sampled from the hard range, and the soft-hit history is cleared. -/
theorem soft_cooldown_escalates_to_hard (p : RateLimitPolicy) (h now sd hd : ℚ)
    (hthr : p.soft_threshold = 2)
    (hhits : p.soft_hits = [h])
    (hwin : now - p.cooldown_window ≤ h)
    (hdlo : p.hard_range.1 ≤ hd) (hdhi : hd ≤ p.hard_range.2) :
    (enterSoftCooldown p now sd hd).1 = ⟨.hard, hd⟩ ∧
    (enterSoftCooldown p now sd hd).2.cooldown_level = some .hard ∧
    (enterSoftCooldown p now sd hd).2.cooldown_until = some (now + hd) ∧
    (enterSoftCooldown p now sd hd).2.soft_hits = [] ∧
    p.hard_range.1 ≤ hd ∧ hd ≤ p.hard_range.2 := by
  have hstep : enterSoftCooldown p now sd hd
      = (⟨.hard, hd⟩,
         { p with soft_hits := [], cooldown_until := some (now + hd),
                  cooldown_level := some .hard, attempts := 0 }) := by
    unfold enterSoftCooldown prune_soft_hits enterHardCooldown
    simp only [hhits, List.cons_append, List.nil_append]
    rw [List.dropWhile_cons_of_neg (by simp only [decide_eq_true_eq, not_lt]; linarith)]
    rw [if_pos (by simp only [hthr, List.length_cons, List.length_nil]; omega)]
  rw [hstep]
  exact ⟨rfl, rfl, rfl, rfl, hdlo, hdhi⟩

/-- Claim C7 witness: a default-configured policy with one soft hit at time 10
escalates at time 20 with hard draw 1800 ∈ [1800, 3600]. -/
theorem soft_cooldown_escalates_to_hard_witness :
    (enterSoftCooldown { defaultPolicy with soft_hits := [10] } 20 300 1800).1
      = ⟨.hard, 1800⟩ ∧
    (enterSoftCooldown { defaultPolicy with soft_hits := [10] } 20 300 1800).2.soft_hits = [] := by
  have h := soft_cooldown_escalates_to_hard { defaultPolicy with soft_hits := [10] }
    10 20 300 1800 rfl rfl
    (by
      have h1 : ({ defaultPolicy with soft_hits := [10] } : RateLimitPolicy).cooldown_window
          = max 300 3600 := rfl
      rw [h1]
      have h2 : ((20 : ℚ) - max 300 3600) ≤ 10 := by
        have := le_max_right (300 : ℚ) 3600
        linarith
      exact h2)
    (le_refl _)
    (by
      have h3 : ({ defaultPolicy with soft_hits := [10] } : RateLimitPolicy).hard_range.2
          = 3600 := rfl
      rw [h3]
      norm_num)
  exact ⟨h.1, h.2.2.2.1⟩

/-! ## Credential pool — src/spider/cookie_pool.py

`time.time()` is passed explicitly as `now`. -/

/-- The frozen `CookieChoice` dataclass. -/
structure CookieChoice where
  cookie : String
  label : String
deriving DecidableEq

/-- A `_CookieEntry`: credential value, label, and last-failure timestamp
(0.0 meaning "never failed"). -/
structure CookieEntry where
  value : String
  label : String
  last_bad : ℚ
deriving DecidableEq

/-- `_CookieEntry.available`: never failed, or the cooldown has elapsed. -/
def CookieEntry.entryAvailable (e : CookieEntry) (now cooldown : ℚ) : Bool :=
  e.last_bad ≤ 0 || cooldown ≤ now - e.last_bad

/-- Placeholder entry used only to totalize list indexing (the source indexes
only with in-range indices produced by `_pick_available`). -/
def dummyEntry : CookieEntry := ⟨"", "", 0⟩

/-- The `CookiePool` state: entries, fallback cookie, cooldown seconds, and
rotation cursor (`None` when constructed with an empty entry list). -/
structure CookiePool where
  entries : List CookieEntry
  fallback : String
  cooldown : ℚ
  index : Option ℕ
deriving DecidableEq

/-- `COOKIE_COOLDOWN_SECONDS` default. -/
def COOKIE_COOLDOWN_SECONDS : ℚ := 600

/-- `_find_index`: index of the first entry whose value equals the choice's
cookie. -/
def findCookieIndex (p : CookiePool) (choice : CookieChoice) : Option ℕ :=
  p.entries.findIdx? fun e => e.value == choice.cookie

/-- `_pick_available(start, now)`: first offset (mod pool size) from `start`
whose entry is available; if all are cooling, `start % n`. -/
def pickAvailable (p : CookiePool) (start : ℕ) (now : ℚ) : ℕ :=
  if p.entries.isEmpty then 0
  else
    let n := p.entries.length
    match (List.range n).find? (fun offset =>
        ((p.entries.getD ((start + offset) % n) dummyEntry).entryAvailable now p.cooldown)) with
    | some offset => (start + offset) % n
    | none => start % n

/-- `_rotate_from_current`: advance one step past the cursor (`(index or 0)+1`)
and pick the next available entry. -/
def rotateFromCurrent (p : CookiePool) (now : ℚ) : CookieChoice × CookiePool :=
  if p.entries.isEmpty then (⟨p.fallback, "fallback"⟩, p)
  else
    let start := p.index.getD 0 + 1
    let idx := pickAvailable p start now
    let e := p.entries.getD idx dummyEntry
    (⟨e.value, e.label⟩, { p with index := some idx })

/-- `mark_bad(choice)`: stamp the matching entry's failure time (falling back
to the cursor position when no entry matches) and rotate to the next
candidate.  (Python `self._index or 0` agrees with `getD 0` because an index
of 0 is falsy and also maps to 0.) -/
def markBad (p : CookiePool) (choice : CookieChoice) (now : ℚ) :
    CookieChoice × CookiePool :=
  if p.entries.isEmpty then (⟨p.fallback, "fallback"⟩, p)
  else
    let idx := (findCookieIndex p choice).getD (p.index.getD 0)
    let entries1 := p.entries.set idx { p.entries.getD idx dummyEntry with last_bad := now }
    rotateFromCurrent { p with entries := entries1, index := some idx } now

/-- Claim C9: on a pool holding exactly one entry, `mark_bad` on that entry
records the failure timestamp and still returns a usable choice — the same,
now-stale, entry — instead of failing: `_pick_available` wraps around to index
0 whether or not the entry is still cooling. -/
theorem mark_bad_single_entry (e : CookieEntry) (fb : String) (now : ℚ)
    (choice : CookieChoice) (hmatch : choice.cookie = e.value) :
    (markBad ⟨[e], fb, COOKIE_COOLDOWN_SECONDS, some 0⟩ choice now).1
      = ⟨e.value, e.label⟩ ∧
    (markBad ⟨[e], fb, COOKIE_COOLDOWN_SECONDS, some 0⟩ choice now).2.entries
      = [{ e with last_bad := now }] ∧
    (markBad ⟨[e], fb, COOKIE_COOLDOWN_SECONDS, some 0⟩ choice now).2.index = some 0 := by
  have hfind : findCookieIndex ⟨[e], fb, COOKIE_COOLDOWN_SECONDS, some 0⟩ choice = some 0 := by
    unfold findCookieIndex
    simp [hmatch]
  have hmb : markBad ⟨[e], fb, COOKIE_COOLDOWN_SECONDS, some 0⟩ choice now
      = rotateFromCurrent ⟨[{ e with last_bad := now }], fb, COOKIE_COOLDOWN_SECONDS, some 0⟩ now := by
    unfold markBad
    rw [if_neg (by simp)]
    simp only [hfind, Option.getD_some, List.getD, List.get?_eq_getElem?]
    rfl
  rw [hmb]
  unfold rotateFromCurrent
  rw [if_neg (by simp)]
  simp only [Option.getD_some]
  have hpick : pickAvailable ⟨[{ e with last_bad := now }], fb, COOKIE_COOLDOWN_SECONDS, some 0⟩ 1 now = 0 := by
    unfold pickAvailable
    rw [if_neg (by simp)]
    dsimp only [List.length_cons, List.length_nil]
    split
    · omega
    · omega
  rw [hpick]
  refine ⟨?_, ?_, ?_⟩ <;> first | rfl | trivial

/-- Claim C9 witness: concrete single-entry pool, marked bad at time 5; the
same entry comes back with its failure timestamp recorded. -/
theorem mark_bad_single_entry_witness :
    (markBad ⟨[⟨"ck", "pool-1", 0⟩], "fb", COOKIE_COOLDOWN_SECONDS, some 0⟩ ⟨"ck", "x"⟩ 5).1
      = ⟨"ck", "pool-1"⟩ ∧
    (markBad ⟨[⟨"ck", "pool-1", 0⟩], "fb", COOKIE_COOLDOWN_SECONDS, some 0⟩ ⟨"ck", "x"⟩ 5).2.entries
      = [⟨"ck", "pool-1", 5⟩] := by
  have h := mark_bad_single_entry ⟨"ck", "pool-1", 0⟩ "fb" 5 ⟨"ck", "x"⟩ rfl
  exact ⟨h.1, h.2.1⟩

/-! ## Archive upsert — src/spider/fetch_hot_topics.py

A snapshot topic entry and an archive record are embedded structurally with
the fields the source reads or writes.  `Option.none` stands for an absent
key (the source reads all of these fields through `dict.get`/`setdefault`,
and the records written by this code never store an explicit `None` where the
distinction would matter).  The archive map is a function from title key to
record; Python dict insertion order is not modeled. -/

/-- Python `str.strip()`: drop leading and trailing whitespace. -/
def pyStrip (s : String) : String :=
  String.mk (((s.toList.dropWhile Char.isWhitespace).reverse.dropWhile
    Char.isWhitespace).reverse)

/-- The f-string `f"{hour:02d}"`: zero-padded two-digit hour. -/
def hourStr (hour : ℕ) : String :=
  if hour < 10 then "0" ++ toString hour else toString hour

/-- `iso_time(date_str, hour)`: ISO timestamp at the hour boundary in the
China timezone, seconds precision. -/
def iso_time (date_str : String) (hour : ℕ) : String :=
  date_str ++ "T" ++ hourStr hour ++ ":00:00+08:00"

/-- Modelled from the spec: `slugify_title` is imported from
`spider/crawler_core.py`, a module of this repository that is not under
`src/`; the spec describes the slug only as a "normalized identifier" derived
from the title.  Any deterministic function of the title satisfies the claims
below; whitespace is mapped to hyphens. -/
def slugify_title (title : String) : String :=
  String.mk (title.toList.map fun c => if c.isWhitespace then '-' else c)

/-- A raw snapshot topic entry (the remote JSON shape: the `BASE_TOPIC_FIELDS`
that precede the archive bookkeeping fields). -/
structure Topic where
  title : Option String
  category : Option String
  description : Option String
  url : Option String
  hot : Option ℤ
  ads : Option Bool
  readCount : Option ℤ
  discussCount : Option ℤ
  origin : Option String
deriving DecidableEq

/-- An archive record: the snapshot fields plus the bookkeeping fields
maintained by `upsert_topic` / `normalize_topic_record`.  `aicard` and
`latest_posts` are dictionaries whose contents `upsert_topic` never inspects;
they are embedded as association lists. -/
structure TopicRecord where
  title : Option String
  category : Option String
  description : Option String
  url : Option String
  hot : Option ℤ
  ads : Option Bool
  readCount : Option ℤ
  discussCount : Option ℤ
  origin : Option String
  appeared_hours : List String
  first_seen : Option String
  last_seen : Option String
  last_post_refresh : Option String
  post_output : Option String
  known_ids : List String
  needs_refresh : Option Bool
  slug : Option String
  aicard : Option (List (String × String))
  latest_posts : Option (List (String × String))
  last_post_total : Option ℤ
deriving DecidableEq

/-- Python `dict.setdefault` on an optional field: keep a present value,
otherwise fall back to the supplied default. -/
def setdefault {α : Type} (a v : Option α) : Option α :=
  match a with
  | none => v
  | some x => some x

/-- `normalize_topic_record`: replace a falsy description by the title, fill
the `TOPIC_DEFAULTS`, and default `first_seen`/`last_seen` to each other.
(`order_topic_fields` only reorders dict keys and is the identity here.) -/
def normalize_topic_record (r : TopicRecord) : TopicRecord :=
  let d : Option String :=
    match r.description with
    | none => some (r.title.getD "")
    | some s => if s = "" then some (r.title.getD "") else some s
  let r1 := { r with description := d }
  let r2 := { r1 with
    description := some (r1.description.getD ""),
    needs_refresh := some (r1.needs_refresh.getD true),
    aicard := some (r1.aicard.getD []),
    latest_posts := some (r1.latest_posts.getD []),
    last_post_total := some (r1.last_post_total.getD 0),
    ads := some (r1.ads.getD false) }
  let fs := setdefault r2.first_seen r2.last_seen
  let ls := setdefault r2.last_seen fs
  { r2 with first_seen := fs, last_seen := ls }

/-- The fresh record built by the `if not record` branch of `upsert_topic`
(`dict(topic)` plus the bookkeeping fields), before normalization. -/
def newTopicRecord (topic : Topic) (title seen_time hour_str : String) : TopicRecord where
  title := topic.title
  category := topic.category
  description := topic.description
  url := topic.url
  hot := topic.hot
  ads := topic.ads
  readCount := topic.readCount
  discussCount := topic.discussCount
  origin := topic.origin
  appeared_hours := [hour_str]
  first_seen := some seen_time
  last_seen := some seen_time
  last_post_refresh := none
  post_output := none
  known_ids := []
  needs_refresh := some true
  slug := some (slugify_title title)
  aicard := none
  latest_posts := none
  last_post_total := none

/-- The `record.update(topic)` merge plus the subsequent field updates of the
existing-record branch of `upsert_topic`, before normalization. -/
def mergeExisting (r : TopicRecord) (topic : Topic)
    (title date_str seen_time hour_str : String) : TopicRecord :=
  let r1 := { r with
    title := topic.title, category := topic.category,
    description := topic.description, url := topic.url, hot := topic.hot,
    ads := topic.ads, readCount := topic.readCount,
    discussCount := topic.discussCount, origin := topic.origin }
  let ah := if hour_str ∈ r1.appeared_hours then r1.appeared_hours
            else r1.appeared_hours ++ [hour_str]
  let r2 := { r1 with
    appeared_hours := ah,
    last_seen := some seen_time,
    first_seen := setdefault r1.first_seen (some seen_time),
    last_post_refresh := setdefault r1.last_post_refresh none,
    slug := some (slugify_title title) }
  if r2.last_post_refresh ≠ some date_str then { r2 with needs_refresh := some true }
  else r2

/-- `upsert_topic(record_map, topic, date_str, hour)`: `None` and an untouched
map on a blank title; otherwise create or merge the record for the stripped
title and store its normalized form.  Returns the Python return value paired
with the updated map. -/
def upsert_topic (record_map : String → Option TopicRecord) (topic : Topic)
    (date_str : String) (hour : ℕ) :
    Option TopicRecord × (String → Option TopicRecord) :=
  let title := pyStrip (topic.title.getD "")
  if title = "" then (none, record_map)
  else
    let hour_str := hourStr hour
    let seen_time := iso_time date_str hour
    match record_map title with
    | none =>
        let stored := normalize_topic_record (newTopicRecord topic title seen_time hour_str)
        (some stored, fun k => if k = title then some stored else record_map k)
    | some record =>
        let stored := normalize_topic_record
          (mergeExisting record topic title date_str seen_time hour_str)
        (some stored, fun k => if k = title then some stored else record_map k)

/-- The description value `normalize_topic_record` computes for a record whose
`title`/`description` come from `topic` (falsy description replaced by the
title, missing title by the empty string). -/
def normalizedDescription (topic : Topic) : Option String :=
  match topic.description with
  | none => some (topic.title.getD "")
  | some s => if s = "" then some (topic.title.getD "") else some s

/-- Shape of a record just stored by `upsert_topic` for snapshot entry `topic`
under key `title` at `(date_str, hour)` with timestamp `seen` and hour string
`hs`: the snapshot fields mirror the topic, the bookkeeping fields are filled,
and `needs_refresh` is true unless the last post refresh happened on
`date_str`. -/
def storedInvariant (u : TopicRecord) (topic : Topic) (title d seen hs : String) : Prop :=
  u.title = topic.title ∧
  u.category = topic.category ∧
  u.description = normalizedDescription topic ∧
  u.url = topic.url ∧
  u.hot = topic.hot ∧
  u.ads = some (topic.ads.getD false) ∧
  u.readCount = topic.readCount ∧
  u.discussCount = topic.discussCount ∧
  u.origin = topic.origin ∧
  hs ∈ u.appeared_hours ∧
  (∃ f, u.first_seen = some f) ∧
  u.last_seen = some seen ∧
  (∃ b, u.needs_refresh = some b ∧ (u.last_post_refresh ≠ some d → b = true)) ∧
  (∃ a, u.aicard = some a) ∧
  (∃ lp, u.latest_posts = some lp) ∧
  (∃ n, u.last_post_total = some n) ∧
  u.slug = some (slugify_title title)

theorem merge_stable (u : TopicRecord) (topic : Topic) (title d seen hs : String)
    (h : storedInvariant u topic title d seen hs) :
    normalize_topic_record (mergeExisting u topic title d seen hs) = u := by
  obtain ⟨ht, hcat, hdesc, hurl, hhot, hads, hrc, hdc, horig, hah, ⟨f, hfs⟩, hls,
    ⟨b, hnr, hnrd⟩, ⟨a, hai⟩, ⟨lp, hlp⟩, ⟨n0, hlpt⟩, hslug⟩ := h
  rcases u with ⟨ut, ucat, udesc, uurl, uhot, uads, urc, udc, uorig, uah, ufs, uls,
    ulpr, upo, uki, unr, uslug, uai, ulp, ulpt⟩
  simp only at ht hcat hdesc hurl hhot hads hrc hdc horig hah hfs hls hnr hnrd hai hlp hlpt hslug
  subst ht hcat hurl hhot hrc hdc horig hfs hls hnr hai hlp hlpt hslug hdesc hads
  unfold mergeExisting normalize_topic_record
  dsimp only
  rw [if_pos hah]
  rcases ulpr with _ | lpr
  · rw [if_pos (by simp [setdefault])]
    rw [hnrd (by simp)]
    simp only [setdefault, Option.getD_some]
    unfold normalizedDescription
    rcases topic.description with _ | s
    · simp only [Option.getD_some]
    · dsimp only
      by_cases hse : s = ""
      · rw [if_pos hse]
        simp only [Option.getD_some]
      · rw [if_neg hse]
        simp only [Option.getD_some]
  · by_cases hld : lpr = d
    · subst hld
      rw [if_neg (by simp [setdefault])]
      simp only [setdefault, Option.getD_some]
      unfold normalizedDescription
      rcases topic.description with _ | s
      · simp only [Option.getD_some]
      · dsimp only
        by_cases hse : s = ""
        · rw [if_pos hse]
          simp only [Option.getD_some]
        · rw [if_neg hse]
          simp only [Option.getD_some]
    · rw [if_pos (by simp [setdefault, hld])]
      rw [hnrd (by simp [hld])]
      simp only [setdefault, Option.getD_some]
      unfold normalizedDescription
      rcases topic.description with _ | s
      · simp only [Option.getD_some]
      · dsimp only
        by_cases hse : s = ""
        · rw [if_pos hse]
          simp only [Option.getD_some]
        · rw [if_neg hse]
          simp only [Option.getD_some]

theorem new_record_invariant (topic : Topic) (title d seen hs : String) :
    storedInvariant (normalize_topic_record (newTopicRecord topic title seen hs))
      topic title d seen hs := by
  unfold storedInvariant normalize_topic_record newTopicRecord normalizedDescription setdefault
  dsimp only
  rcases topic.description with _ | s
  · refine ⟨rfl, rfl, by simp, rfl, rfl, rfl, rfl, rfl, rfl, by simp, ⟨seen, rfl⟩, rfl,
      ⟨true, rfl, fun _ => rfl⟩, ⟨[], rfl⟩, ⟨[], rfl⟩, ⟨0, rfl⟩, rfl⟩
  · dsimp only
    by_cases hse : s = ""
    · rw [if_pos hse]
      refine ⟨rfl, rfl, by simp, rfl, rfl, rfl, rfl, rfl, rfl, by simp, ⟨seen, rfl⟩, rfl,
        ⟨true, rfl, fun _ => rfl⟩, ⟨[], rfl⟩, ⟨[], rfl⟩, ⟨0, rfl⟩, rfl⟩
    · rw [if_neg hse]
      refine ⟨rfl, rfl, by simp, rfl, rfl, rfl, rfl, rfl, rfl, by simp, ⟨seen, rfl⟩, rfl,
        ⟨true, rfl, fun _ => rfl⟩, ⟨[], rfl⟩, ⟨[], rfl⟩, ⟨0, rfl⟩, rfl⟩

theorem merged_record_invariant (r : TopicRecord) (topic : Topic) (title d seen hs : String) :
    storedInvariant (normalize_topic_record (mergeExisting r topic title d seen hs))
      topic title d seen hs := by
  rcases r with ⟨ut, ucat, udesc, uurl, uhot, uads, urc, udc, uorig, uah, ufs, uls,
    ulpr, upo, uki, unr, uslug, uai, ulp, ulpt⟩
  unfold storedInvariant normalize_topic_record mergeExisting normalizedDescription setdefault
  dsimp only
  have hmem : hs ∈ (if hs ∈ uah then uah else uah ++ [hs]) := by
    by_cases hin : hs ∈ uah
    · rw [if_pos hin]; exact hin
    · rw [if_neg hin]; simp
  rcases ulpr with _ | lpr
  · rw [if_pos (by simp)]
    dsimp only
    rcases topic.description with _ | s
    · exact ⟨rfl, rfl, by simp, rfl, rfl, rfl, rfl, rfl, rfl, hmem,
        ⟨(match ufs with | none => seen | some x => x), by rcases ufs <;> rfl⟩, rfl,
        ⟨true, rfl, fun _ => rfl⟩, ⟨uai.getD [], by rcases uai <;> rfl⟩,
        ⟨ulp.getD [], by rcases ulp <;> rfl⟩, ⟨ulpt.getD 0, by rcases ulpt <;> rfl⟩, rfl⟩
    · dsimp only
      by_cases hse : s = ""
      · rw [if_pos hse]
        exact ⟨rfl, rfl, by simp, rfl, rfl, rfl, rfl, rfl, rfl, hmem,
          ⟨(match ufs with | none => seen | some x => x), by rcases ufs <;> rfl⟩, rfl,
          ⟨true, rfl, fun _ => rfl⟩, ⟨uai.getD [], by rcases uai <;> rfl⟩,
          ⟨ulp.getD [], by rcases ulp <;> rfl⟩, ⟨ulpt.getD 0, by rcases ulpt <;> rfl⟩, rfl⟩
      · rw [if_neg hse]
        exact ⟨rfl, rfl, by simp, rfl, rfl, rfl, rfl, rfl, rfl, hmem,
          ⟨(match ufs with | none => seen | some x => x), by rcases ufs <;> rfl⟩, rfl,
          ⟨true, rfl, fun _ => rfl⟩, ⟨uai.getD [], by rcases uai <;> rfl⟩,
          ⟨ulp.getD [], by rcases ulp <;> rfl⟩, ⟨ulpt.getD 0, by rcases ulpt <;> rfl⟩, rfl⟩
  · by_cases hld : lpr = d
    · subst hld
      rw [if_neg (by simp)]
      dsimp only
      rcases topic.description with _ | s
      · exact ⟨rfl, rfl, by simp, rfl, rfl, rfl, rfl, rfl, rfl, hmem,
          ⟨(match ufs with | none => seen | some x => x), by rcases ufs <;> rfl⟩, rfl,
          ⟨unr.getD true, by rcases unr <;> rfl, fun hcontr => absurd rfl hcontr⟩,
          ⟨uai.getD [], by rcases uai <;> rfl⟩,
          ⟨ulp.getD [], by rcases ulp <;> rfl⟩, ⟨ulpt.getD 0, by rcases ulpt <;> rfl⟩, rfl⟩
      · dsimp only
        by_cases hse : s = ""
        · rw [if_pos hse]
          exact ⟨rfl, rfl, by simp, rfl, rfl, rfl, rfl, rfl, rfl, hmem,
            ⟨(match ufs with | none => seen | some x => x), by rcases ufs <;> rfl⟩, rfl,
            ⟨unr.getD true, by rcases unr <;> rfl, fun hcontr => absurd rfl hcontr⟩,
            ⟨uai.getD [], by rcases uai <;> rfl⟩,
            ⟨ulp.getD [], by rcases ulp <;> rfl⟩, ⟨ulpt.getD 0, by rcases ulpt <;> rfl⟩, rfl⟩
        · rw [if_neg hse]
          exact ⟨rfl, rfl, by simp, rfl, rfl, rfl, rfl, rfl, rfl, hmem,
            ⟨(match ufs with | none => seen | some x => x), by rcases ufs <;> rfl⟩, rfl,
            ⟨unr.getD true, by rcases unr <;> rfl, fun hcontr => absurd rfl hcontr⟩,
            ⟨uai.getD [], by rcases uai <;> rfl⟩,
            ⟨ulp.getD [], by rcases ulp <;> rfl⟩, ⟨ulpt.getD 0, by rcases ulpt <;> rfl⟩, rfl⟩
    · rw [if_pos (by simp [hld])]
      dsimp only
      rcases topic.description with _ | s
      · exact ⟨rfl, rfl, by simp, rfl, rfl, rfl, rfl, rfl, rfl, hmem,
          ⟨(match ufs with | none => seen | some x => x), by rcases ufs <;> rfl⟩, rfl,
          ⟨true, rfl, fun _ => rfl⟩, ⟨uai.getD [], by rcases uai <;> rfl⟩,
          ⟨ulp.getD [], by rcases ulp <;> rfl⟩, ⟨ulpt.getD 0, by rcases ulpt <;> rfl⟩, rfl⟩
      · dsimp only
        by_cases hse : s = ""
        · rw [if_pos hse]
          exact ⟨rfl, rfl, by simp, rfl, rfl, rfl, rfl, rfl, rfl, hmem,
            ⟨(match ufs with | none => seen | some x => x), by rcases ufs <;> rfl⟩, rfl,
            ⟨true, rfl, fun _ => rfl⟩, ⟨uai.getD [], by rcases uai <;> rfl⟩,
            ⟨ulp.getD [], by rcases ulp <;> rfl⟩, ⟨ulpt.getD 0, by rcases ulpt <;> rfl⟩, rfl⟩
        · rw [if_neg hse]
          exact ⟨rfl, rfl, by simp, rfl, rfl, rfl, rfl, rfl, rfl, hmem,
            ⟨(match ufs with | none => seen | some x => x), by rcases ufs <;> rfl⟩, rfl,
            ⟨true, rfl, fun _ => rfl⟩, ⟨uai.getD [], by rcases uai <;> rfl⟩,
            ⟨ulp.getD [], by rcases ulp <;> rfl⟩, ⟨ulpt.getD 0, by rcases ulpt <;> rfl⟩, rfl⟩

theorem upsert_eval_new (m : String → Option TopicRecord) (topic : Topic)
    (date_str : String) (hour : ℕ)
    (hblank : ¬ pyStrip (topic.title.getD "") = "")
    (hm : m (pyStrip (topic.title.getD "")) = none) :
    upsert_topic m topic date_str hour
      = (some (normalize_topic_record (newTopicRecord topic (pyStrip (topic.title.getD ""))
            (iso_time date_str hour) (hourStr hour))),
         fun k => if k = pyStrip (topic.title.getD "") then
            some (normalize_topic_record (newTopicRecord topic (pyStrip (topic.title.getD ""))
              (iso_time date_str hour) (hourStr hour)))
          else m k) := by
  unfold upsert_topic
  rw [if_neg hblank]
  dsimp only
  rw [hm]

theorem upsert_eval_merge (m : String → Option TopicRecord) (topic : Topic)
    (date_str : String) (hour : ℕ) (r : TopicRecord)
    (hblank : ¬ pyStrip (topic.title.getD "") = "")
    (hm : m (pyStrip (topic.title.getD "")) = some r) :
    upsert_topic m topic date_str hour
      = (some (normalize_topic_record (mergeExisting r topic (pyStrip (topic.title.getD ""))
            date_str (iso_time date_str hour) (hourStr hour))),
         fun k => if k = pyStrip (topic.title.getD "") then
            some (normalize_topic_record (mergeExisting r topic (pyStrip (topic.title.getD ""))
              date_str (iso_time date_str hour) (hourStr hour)))
          else m k) := by
  unfold upsert_topic
  rw [if_neg hblank]
  dsimp only
  rw [hm]

theorem upsert_restore (m : String → Option TopicRecord) (topic : Topic)
    (date_str : String) (hour : ℕ) (stored : TopicRecord)
    (hblank : ¬ pyStrip (topic.title.getD "") = "")
    (hinv : storedInvariant stored topic (pyStrip (topic.title.getD "")) date_str
      (iso_time date_str hour) (hourStr hour)) :
    upsert_topic (fun k => if k = pyStrip (topic.title.getD "") then some stored else m k)
        topic date_str hour
      = (some stored,
         fun k => if k = pyStrip (topic.title.getD "") then some stored else m k) := by
  have hlook : (fun k => if k = pyStrip (topic.title.getD "") then some stored else m k)
      (pyStrip (topic.title.getD "")) = some stored := by simp
  rw [upsert_eval_merge _ topic date_str hour stored hblank hlook]
  rw [merge_stable stored topic _ date_str (iso_time date_str hour) (hourStr hour) hinv]
  simp only [Prod.mk.injEq]
  refine ⟨by trivial, funext fun k => ?_⟩
  by_cases hk : k = pyStrip (topic.title.getD "")
  · simp [hk]
  · simp [hk]

/-- Claim C4: `upsert_topic` is idempotent — applying it a second time with the
same topic, date and hour returns the same record and leaves the archive map
identical to the result of applying it once: the hour string is not duplicated
in `appeared_hours`, and `first_seen`, `last_seen` and every other field of the
stored record are unchanged by the second application.  (This holds for every
initial archive, including the blank-title case where both applications leave
the map untouched.) -/
theorem upsert_topic_idem (m : String → Option TopicRecord) (topic : Topic)
    (date_str : String) (hour : ℕ) :
    upsert_topic (upsert_topic m topic date_str hour).2 topic date_str hour
      = upsert_topic m topic date_str hour := by
  by_cases hblank : pyStrip (topic.title.getD "") = ""
  · have h1 : upsert_topic m topic date_str hour = (none, m) := by
      unfold upsert_topic
      rw [if_pos hblank]
    rw [h1]
    unfold upsert_topic
    rw [if_pos hblank]
  · cases hm : m (pyStrip (topic.title.getD "")) with
    | none =>
        rw [upsert_eval_new m topic date_str hour hblank hm]
        exact upsert_restore m topic date_str hour _ hblank
          (new_record_invariant topic (pyStrip (topic.title.getD "")) date_str
            (iso_time date_str hour) (hourStr hour))
    | some r =>
        rw [upsert_eval_merge m topic date_str hour r hblank hm]
        exact upsert_restore m topic date_str hour _ hblank
          (merged_record_invariant r topic (pyStrip (topic.title.getD "")) date_str
            (iso_time date_str hour) (hourStr hour))

/-- Claim C10: `upsert_topic` on a topic whose title is missing, empty, or
whitespace-only returns `None` and leaves the archive map unchanged. -/
theorem upsert_topic_blank_title (m : String → Option TopicRecord) (topic : Topic)
    (date_str : String) (hour : ℕ)
    (hblank : pyStrip (topic.title.getD "") = "") :
    upsert_topic m topic date_str hour = (none, m) := by
  unfold upsert_topic
  rw [if_pos hblank]

/-- A whitespace-only snapshot entry used to witness the blank-title claim. -/
def blankTopic : Topic :=
  ⟨some "  \t ", none, none, none, none, none, none, none, none⟩

/-- Claim C10 witness: a whitespace-only title strips to the empty string and
the upsert returns `None` leaving the (empty) archive untouched. -/
theorem upsert_topic_blank_title_witness :
    pyStrip ((blankTopic.title).getD "") = "" ∧
    upsert_topic (fun _ => none) blankTopic "2025-01-01" 9
      = (none, fun _ => none) := by
  refine ⟨by decide, ?_⟩
  exact upsert_topic_blank_title (fun _ => none) blankTopic "2025-01-01" 9 (by decide)

/-! ## Snapshot fetcher fallback policy — src/spider/monitor_remote_hot_topics.py

A `datetime` in the China timezone is embedded as a calendar day index plus
hour/minute/second fields; chronological comparison is comparison of total
seconds.  The primary remote fetch outcome and the local crawler's output are
passed as explicit arguments. -/

/-- A wall-clock instant: linear day number plus time of day. -/
structure SimpleDT where
  day : ℤ
  hour : ℕ
  minute : ℕ
  second : ℕ
deriving DecidableEq

/-- Seconds since the (arbitrary) day-zero epoch; datetime comparison and
subtraction reduce to this. -/
def SimpleDT.totalSeconds (t : SimpleDT) : ℤ :=
  t.day * 86400 + t.hour * 3600 + t.minute * 60 + t.second

/-- `LOCAL_FALLBACK_THRESHOLD_MINUTES` default (45). -/
def LOCAL_FALLBACK_THRESHOLD_MINUTES : ℤ := 45

/-- `should_trigger_local(date_str, hour)`: the target is the hour boundary of
(day, hour); never trigger before it; trigger once 45 minutes have elapsed, or
when the current date or hour has rolled past the target. -/
def should_trigger_local (day : ℤ) (hour : ℕ) (now : SimpleDT) : Bool :=
  let target : SimpleDT := ⟨day, hour, 0, 0⟩
  if now.totalSeconds < target.totalSeconds then false
  else if LOCAL_FALLBACK_THRESHOLD_MINUTES * 60 ≤ now.totalSeconds - target.totalSeconds then true
  else if target.day < now.day then true
  else if hour < now.hour then true
  else false

/-- `fetch_local_topics_with_logging` output, abstracted: the local crawler
either fails / returns nothing (`[]`) or produces a topic list; the argument
`localTopics` is that result. -/
def fetch_local_topics (localTopics : List Topic) : List Topic := localTopics

/-- `_maybe_fetch_local`: postpone (empty list, `False`) unless the timing
policy allows the fallback; otherwise return the local crawler's topics and
whether any were produced. -/
def maybe_fetch_local (day : ℤ) (hour : ℕ) (now : SimpleDT)
    (localTopics : List Topic) : List Topic × Bool :=
  if should_trigger_local day hour now = false then ([], false)
  else
    let topics := fetch_local_topics localTopics
    (topics, !topics.isEmpty)

/-- Outcome of the primary remote fetch of `fetch_hour_topics`. -/
inductive RemoteResult
  | ok (topics : List Topic)
  | httpError (status : Option ℕ)
  | requestError
deriving DecidableEq

/-- `fetch_topics_with_fallback`: return remote topics on success; on HTTP
error, transport/parse exception, or empty payload, consult the fallback. -/
def fetch_topics_with_fallback (day : ℤ) (hour : ℕ) (now : SimpleDT)
    (remote : RemoteResult) (localTopics : List Topic) : List Topic × Bool :=
  match remote with
  | .ok topics =>
      if topics.isEmpty then maybe_fetch_local day hour now localTopics
      else (topics, false)
  | .httpError _ => maybe_fetch_local day hour now localTopics
  | .requestError => maybe_fetch_local day hour now localTopics

/-- `process_hour` returns `True` — and only then touches the hourly and daily
archives (`update_hourly_archive` / `update_daily_archive` run strictly after
the early return on an empty topic list) — iff the fetch produced topics. -/
def process_hour_mutates_archive (day : ℤ) (hour : ℕ) (now : SimpleDT)
    (remote : RemoteResult) (localTopics : List Topic) : Bool :=
  !(fetch_topics_with_fallback day hour now remote localTopics).1.isEmpty

/-- Claim C5: when the primary fetch fails (HTTP error, transport exception,
or empty payload) and the fallback condition does not hold — the current time
is before the target hour boundary, or less than 45 minutes have elapsed since
it while the current date and hour have not rolled past the target — no local
fallback is attempted: the fetch returns an empty topic list with
`usedFallback = false` and processing the hour performs no archive mutation. -/
theorem no_fallback_before_threshold (day : ℤ) (hour : ℕ) (now : SimpleDT)
    (remote : RemoteResult) (localTopics : List Topic)
    (hfail : remote = .requestError ∨ remote = .ok [] ∨ ∃ st, remote = .httpError st)
    (hcond : now.totalSeconds < (⟨day, hour, 0, 0⟩ : SimpleDT).totalSeconds ∨
      (now.totalSeconds - (⟨day, hour, 0, 0⟩ : SimpleDT).totalSeconds <
          LOCAL_FALLBACK_THRESHOLD_MINUTES * 60 ∧
        now.day ≤ day ∧ now.hour ≤ hour)) :
    should_trigger_local day hour now = false ∧
    fetch_topics_with_fallback day hour now remote localTopics = ([], false) ∧
    process_hour_mutates_archive day hour now remote localTopics = false := by
  have htrig : should_trigger_local day hour now = false := by
    unfold should_trigger_local
    dsimp only [SimpleDT.totalSeconds, LOCAL_FALLBACK_THRESHOLD_MINUTES] at hcond ⊢
    split_ifs with h1 h2 h3 h4
    · rfl
    · rcases hcond with hb | ⟨he, hd, hh⟩ <;> omega
    · rcases hcond with hb | ⟨he, hd, hh⟩ <;> omega
    · rcases hcond with hb | ⟨he, hd, hh⟩ <;> omega
    · rfl
  have hmaybe : maybe_fetch_local day hour now localTopics = ([], false) := by
    unfold maybe_fetch_local
    rw [if_pos (by rw [htrig])]
  have hfetch : fetch_topics_with_fallback day hour now remote localTopics = ([], false) := by
    rcases hfail with hre | hok | ⟨st, hhe⟩
    · subst hre
      simp [fetch_topics_with_fallback, hmaybe]
    · subst hok
      simp [fetch_topics_with_fallback, hmaybe]
    · subst hhe
      simp [fetch_topics_with_fallback, hmaybe]
  refine ⟨htrig, hfetch, ?_⟩
  unfold process_hour_mutates_archive
  rw [hfetch]
  rfl

/-- Claim C5 witness (Scenario A): HTTP 404 for hour 09 one minute after the
boundary — 60 s elapsed is below the 45-minute threshold, same day and hour,
so the fetch yields no topics, no fallback, and no archive mutation. -/
theorem no_fallback_before_threshold_witness :
    fetch_topics_with_fallback 0 9 ⟨0, 9, 1, 0⟩ (.httpError (some 404)) [blankTopic]
      = ([], false) ∧
    process_hour_mutates_archive 0 9 ⟨0, 9, 1, 0⟩ (.httpError (some 404)) [blankTopic]
      = false := by
  have h := no_fallback_before_threshold 0 9 ⟨0, 9, 1, 0⟩ (.httpError (some 404)) [blankTopic]
    (Or.inr (Or.inr ⟨some 404, rfl⟩))
    (Or.inr (by refine ⟨by decide, by decide, by decide⟩))
  exact ⟨h.2.1, h.2.2⟩

/-! ## Enrichment candidate selection — src/backend/scheduler.py

`daily_llm_update` is modeled up to the dispatch of worker names: the
candidate skip, canonicalization, per-canonical dedup by highest heat, the
stable descending sort, and the top-K cut.  Heat values are numeric (the
string coercion of `_coerce_hot_number`, e.g. "1.2万", is outside this model;
`None` coerces to 0 as in the source).  The workers' effect is an arbitrary
per-name event transformation applied exactly to the dispatched names. -/

/-- An archive event as read by `daily_llm_update` and its helpers. -/
structure LLMEvent where
  title : Option String
  name : Option String
  hot_values : List (String × ℚ)
  hot : Option ℚ
  heat : Option ℚ
  score : Option ℚ
  last_content_update_date : Option String
  processing_status : Option String
deriving DecidableEq

/-- `_canonical_topic_name(raw_name, event)`: display title (or `name`) when
it is a non-blank string, else the raw archive key; the result is stripped,
falling back to the raw key when blank. -/
def canonical_topic_name (raw_name : String) (e : LLMEvent) : String :=
  let title : Option String :=
    match e.title with
    | some s => if s = "" then e.name else some s
    | none => e.name
  let candidate : String :=
    match title with
    | some s => if pyStrip s = "" then raw_name else s
    | none => raw_name
  if pyStrip candidate = "" then raw_name else pyStrip candidate

/-- `_coerce_hot_number` restricted to numeric-or-missing values: `None` → 0,
a number → itself. -/
def coerce_hot_number (raw : Option ℚ) : ℚ := raw.getD 0

/-- One step of the `("hot", "heat", "score")` key loop of
`_extract_hot_score`: a present key with non-zero coerced value is returned,
otherwise the loop continues. -/
def tryHotKey (o : Option ℚ) (rest : ℚ) : ℚ :=
  match o with
  | some v => if coerce_hot_number (some v) ≠ 0 then coerce_hot_number (some v) else rest
  | none => rest

/-- `_extract_hot_score(event)`: the value at the lexicographically-largest
timestamp key of a non-empty `hot_values` dict; otherwise the first non-zero
of `hot`, `heat`, `score`; otherwise 0. -/
def extract_hot_score (e : LLMEvent) : ℚ :=
  match e.hot_values.foldl
      (fun acc kv =>
        match acc with
        | none => some (kv.1, coerce_hot_number (some kv.2))
        | some best =>
            if best.1 < kv.1 then some (kv.1, coerce_hot_number (some kv.2)) else some best)
      none with
  | some best => best.2
  | none => tryHotKey e.hot (tryHotKey e.heat (tryHotKey e.score 0))

/-- A `dedup_candidates` entry: surviving archive key and its heat. -/
structure DedupCand where
  archive_name : String
  hot : ℚ
deriving DecidableEq

/-- Lookup in an insertion-ordered dict embedded as an association list. -/
def assocFind : List (String × DedupCand) → String → Option DedupCand
  | [], _ => none
  | kv :: rest, k => if kv.1 = k then some kv.2 else assocFind rest k

/-- Python dict assignment: replace the value in place when the key exists,
append otherwise. -/
def assocSet : List (String × DedupCand) → String → DedupCand → List (String × DedupCand)
  | [], k, v => [(k, v)]
  | kv :: rest, k, v => if kv.1 = k then (k, v) :: rest else kv :: assocSet rest k v

/-- The `(not force) and last_content_update_date == today_marker` skip. -/
def cand_skipped (force : Bool) (today : String) (e : LLMEvent) : Bool :=
  !force && (e.last_content_update_date == some today)

/-- One iteration of the candidate loop of `daily_llm_update`: skip fresh
events, otherwise keep the entry with strictly higher heat per canonical name
(first entry wins ties). -/
def dedup_step (force : Bool) (today : String) (acc : List (String × DedupCand))
    (item : String × LLMEvent) : List (String × DedupCand) :=
  if cand_skipped force today item.2 then acc
  else
    let canonical := canonical_topic_name item.1 item.2
    let hot_score := extract_hot_score item.2
    match assocFind acc canonical with
    | none => assocSet acc canonical ⟨item.1, hot_score⟩
    | some existing =>
        if existing.hot < hot_score then assocSet acc canonical ⟨item.1, hot_score⟩ else acc

/-- `dedup_candidates` accumulated over the archive items in order. -/
def dedup_candidates (force : Bool) (today : String)
    (archive : List (String × LLMEvent)) : List (String × DedupCand) :=
  archive.foldl (dedup_step force today) []

/-- Python `sorted(candidates, key=hot, reverse=True)` is a stable descending
sort; insertion sort under "not-after" (`b.hot ≤ a.hot`) computes exactly
that (equal heats keep dict order). -/
def sortByHotDesc (l : List DedupCand) : List DedupCand :=
  List.insertionSort (fun a b => b.hot ≤ a.hot) l

/-- `pending_names`: ranked survivor names, cut to the top K when the
configured `LLM_ANALYSIS_TOP_K` is positive. -/
def pending_names (force : Bool) (today : String) (topK : ℕ)
    (archive : List (String × LLMEvent)) : List String :=
  let ranked := sortByHotDesc ((dedup_candidates force today archive).map (·.2))
  let limited := if 0 < topK then ranked.take topK else ranked
  limited.map (·.archive_name)

/-- Archive lookup by key (first match, as in a dict). -/
def lookupEvent : List (String × LLMEvent) → String → Option LLMEvent
  | [], _ => none
  | kv :: rest, k => if kv.1 = k then some kv.2 else lookupEvent rest k

/-- The dispatch phase of `daily_llm_update`: each worker
(`_process_event_llm`) rewrites exactly its own archive entry; `f` is the
per-name effect and is applied to the dispatched names only. -/
def run_llm_update (f : String → LLMEvent → LLMEvent) (force : Bool) (today : String)
    (topK : ℕ) (archive : List (String × LLMEvent)) : List (String × LLMEvent) :=
  let pending := pending_names force today topK archive
  archive.map fun kv => if kv.1 ∈ pending then (kv.1, f kv.1 kv.2) else kv

theorem assocFind_set_self (l : List (String × DedupCand)) (k : String) (v : DedupCand) :
    assocFind (assocSet l k v) k = some v := by
  induction l with
  | nil => simp [assocSet, assocFind]
  | cons kv rest ih =>
      unfold assocSet
      by_cases hk : kv.1 = k
      · rw [if_pos hk]
        simp [assocFind]
      · rw [if_neg hk]
        unfold assocFind
        rw [if_neg hk]
        exact ih

theorem assocFind_set_ne (l : List (String × DedupCand)) (k k2 : String) (v : DedupCand)
    (h : k2 ≠ k) : assocFind (assocSet l k v) k2 = assocFind l k2 := by
  have hne : ¬ (k = k2) := fun hc => h hc.symm
  induction l with
  | nil =>
      unfold assocSet assocFind
      dsimp only
      rw [if_neg hne]
      rfl
  | cons kv rest ih =>
      unfold assocSet
      by_cases hk : kv.1 = k
      · rw [if_pos hk]
        unfold assocFind
        dsimp only
        rw [if_neg hne, if_neg (by rw [hk]; exact hne)]
      · rw [if_neg hk]
        unfold assocFind
        by_cases hk2 : kv.1 = k2
        · rw [if_pos hk2, if_pos hk2]
        · rw [if_neg hk2, if_neg hk2]
          exact ih

theorem dedup_step_mono (force : Bool) (today : String)
    (acc : List (String × DedupCand)) (item : String × LLMEvent) (can : String)
    (c : DedupCand) (h : assocFind acc can = some c) :
    ∃ c2, assocFind (dedup_step force today acc item) can = some c2 ∧ c.hot ≤ c2.hot := by
  unfold dedup_step
  by_cases hskip : cand_skipped force today item.2 = true
  · rw [if_pos hskip]
    exact ⟨c, h, le_refl _⟩
  · rw [if_neg hskip]
    dsimp only
    cases hfind : assocFind acc (canonical_topic_name item.1 item.2) with
    | none =>
        dsimp only
        by_cases hcan : can = canonical_topic_name item.1 item.2
        · rw [hcan, hfind] at h
          exact absurd h (by simp)
        · exact ⟨c, by rw [assocFind_set_ne _ _ _ _ hcan]; exact h, le_refl _⟩
    | some existing =>
        dsimp only
        by_cases hlt : existing.hot < extract_hot_score item.2
        · rw [if_pos hlt]
          by_cases hcan : can = canonical_topic_name item.1 item.2
          · rw [hcan, hfind] at h
            injection h with h
            subst h
            exact ⟨⟨item.1, extract_hot_score item.2⟩,
              by rw [hcan]; exact assocFind_set_self _ _ _, le_of_lt hlt⟩
          · exact ⟨c, by rw [assocFind_set_ne _ _ _ _ hcan]; exact h, le_refl _⟩
        · rw [if_neg hlt]
          exact ⟨c, h, le_refl _⟩

theorem dedup_fold_mono (force : Bool) (today : String)
    (items : List (String × LLMEvent)) (acc : List (String × DedupCand))
    (can : String) (c : DedupCand) (h : assocFind acc can = some c) :
    ∃ c2, assocFind (items.foldl (dedup_step force today) acc) can = some c2 ∧
      c.hot ≤ c2.hot := by
  induction items generalizing acc c with
  | nil => exact ⟨c, h, le_refl _⟩
  | cons item rest ih =>
      rw [List.foldl_cons]
      obtain ⟨c1, hc1, hle1⟩ := dedup_step_mono force today acc item can c h
      obtain ⟨c2, hc2, hle2⟩ := ih _ _ hc1
      exact ⟨c2, hc2, le_trans hle1 hle2⟩

theorem dedup_fold_origin (force : Bool) (today : String)
    (items : List (String × LLMEvent)) (acc : List (String × DedupCand))
    (can : String) (c : DedupCand)
    (h : assocFind (items.foldl (dedup_step force today) acc) can = some c) :
    assocFind acc can = some c ∨
    ∃ kv, kv ∈ items ∧ cand_skipped force today kv.2 = false ∧
      canonical_topic_name kv.1 kv.2 = can ∧
      c = ⟨kv.1, extract_hot_score kv.2⟩ := by
  induction items generalizing acc with
  | nil => exact Or.inl h
  | cons item rest ih =>
      rw [List.foldl_cons] at h
      rcases ih (dedup_step force today acc item) h with hstep | ⟨kv, hmem, hskip, hcan, hc⟩
      · unfold dedup_step at hstep
        by_cases hskipped : cand_skipped force today item.2 = true
        · rw [if_pos hskipped] at hstep
          exact Or.inl hstep
        · rw [if_neg hskipped] at hstep
          dsimp only at hstep
          cases hfind : assocFind acc (canonical_topic_name item.1 item.2) with
          | none =>
              rw [hfind] at hstep
              dsimp only at hstep
              by_cases hcan : can = canonical_topic_name item.1 item.2
              · rw [hcan, assocFind_set_self] at hstep
                injection hstep with hstep
                exact Or.inr ⟨item, List.mem_cons_self _ _,
                  (by simpa using hskipped), hcan.symm, hstep.symm⟩
              · rw [assocFind_set_ne _ _ _ _ hcan] at hstep
                exact Or.inl hstep
          | some existing =>
              rw [hfind] at hstep
              dsimp only at hstep
              by_cases hlt : existing.hot < extract_hot_score item.2
              · rw [if_pos hlt] at hstep
                by_cases hcan : can = canonical_topic_name item.1 item.2
                · rw [hcan, assocFind_set_self] at hstep
                  injection hstep with hstep
                  exact Or.inr ⟨item, List.mem_cons_self _ _,
                    (by simpa using hskipped), hcan.symm, hstep.symm⟩
                · rw [assocFind_set_ne _ _ _ _ hcan] at hstep
                  exact Or.inl hstep
              · rw [if_neg hlt] at hstep
                exact Or.inl hstep
      · exact Or.inr ⟨kv, List.mem_cons_of_mem _ hmem, hskip, hcan, hc⟩

theorem dedup_fold_dominates (force : Bool) (today : String)
    (items : List (String × LLMEvent)) (acc : List (String × DedupCand))
    (can : String) (c : DedupCand)
    (h : assocFind (items.foldl (dedup_step force today) acc) can = some c) :
    ∀ kv, kv ∈ items → cand_skipped force today kv.2 = false →
      canonical_topic_name kv.1 kv.2 = can → extract_hot_score kv.2 ≤ c.hot := by
  induction items generalizing acc with
  | nil => intro kv hmem; exact absurd hmem (List.not_mem_nil _)
  | cons item rest ih =>
      rw [List.foldl_cons] at h
      intro kv hmem hskip hcan
      rcases List.mem_cons.mp hmem with heq | hrest
      · subst heq
        have hstep : ∃ c1, assocFind (dedup_step force today acc kv) can = some c1 ∧
            extract_hot_score kv.2 ≤ c1.hot := by
          unfold dedup_step
          rw [if_neg (by rw [hskip]; simp)]
          dsimp only
          rw [hcan]
          cases hfind : assocFind acc can with
          | none =>
              dsimp only
              exact ⟨⟨kv.1, extract_hot_score kv.2⟩, assocFind_set_self _ _ _, le_refl _⟩
          | some existing =>
              dsimp only
              by_cases hlt : existing.hot < extract_hot_score kv.2
              · rw [if_pos hlt]
                exact ⟨⟨kv.1, extract_hot_score kv.2⟩, assocFind_set_self _ _ _, le_refl _⟩
              · rw [if_neg hlt]
                exact ⟨existing, hfind, le_of_not_lt hlt⟩
        obtain ⟨c1, hc1, hle1⟩ := hstep
        obtain ⟨c2, hc2, hle2⟩ := dedup_fold_mono force today rest _ can c1 hc1
        rw [h] at hc2
        injection hc2 with hc2
        subst hc2
        exact le_trans hle1 hle2
      · exact ih (dedup_step force today acc item) h kv hrest hskip hcan

theorem lookup_map_not_mem (pending : List String) (f : String → LLMEvent → LLMEvent)
    (archive : List (String × LLMEvent)) (k : String) (hk : k ∉ pending) :
    lookupEvent (archive.map fun kv => if kv.1 ∈ pending then (kv.1, f kv.1 kv.2) else kv) k
      = lookupEvent archive k := by
  induction archive with
  | nil => rfl
  | cons kv rest ih =>
      simp only [List.map_cons]
      by_cases hmem : kv.1 ∈ pending
      · rw [if_pos hmem]
        unfold lookupEvent
        by_cases hkk : kv.1 = k
        · exact absurd (hkk ▸ hmem) hk
        · rw [if_neg hkk, if_neg hkk]
          exact ih
      · rw [if_neg hmem]
        unfold lookupEvent
        by_cases hkk : kv.1 = k
        · rw [if_pos hkk, if_pos hkk]
        · rw [if_neg hkk, if_neg hkk]
          exact ih

theorem sortByHotDesc_sorted (l : List DedupCand) :
    List.Sorted (fun a b : DedupCand => b.hot ≤ a.hot) (sortByHotDesc l) := by
  haveI : IsTotal DedupCand (fun a b => b.hot ≤ a.hot) := ⟨fun a b => le_total b.hot a.hot⟩
  haveI : IsTrans DedupCand (fun a b => b.hot ≤ a.hot) :=
    ⟨fun _ _ _ hab hbc => le_trans hbc hab⟩
  exact List.sorted_insertionSort _ l

/-- Scenario-C candidate A with heat 500. -/
def eventA : LLMEvent := ⟨none, none, [], some 500, none, none, none, some "none"⟩

/-- Scenario-C candidate B with heat 300. -/
def eventB : LLMEvent := ⟨none, none, [], some 300, none, none, none, some "none"⟩

/-- Scenario-C candidate C with heat 100. -/
def eventC : LLMEvent := ⟨none, none, [], some 100, none, none, none, some "none"⟩

/-- The Scenario-C archive: candidates A (500), B (300), C (100). -/
def scenarioArchive : List (String × LLMEvent) := [("A", eventA), ("B", eventB), ("C", eventC)]

/-- Claim C6: in `daily_llm_update`, candidates are grouped by canonical name
and within each group the entry with strictly highest heat survives (the
group's winner carries the maximal heat of its group and comes from the
group); survivors are ranked by heat descending and only the first K names
are dispatched; every archive entry whose key is not dispatched is left
completely unchanged (in particular `processing_status` and
`last_content_update_date`).  With K = 2 and candidates A (500), B (300),
C (100), exactly A and B are dispatched and C's record stays untouched. -/
theorem daily_llm_update_selection :
    (∀ (f : String → LLMEvent → LLMEvent) (force : Bool) (today : String) (topK : ℕ)
        (archive : List (String × LLMEvent)) (k : String),
        k ∉ pending_names force today topK archive →
        lookupEvent (run_llm_update f force today topK archive) k = lookupEvent archive k) ∧
    (∀ (force : Bool) (today : String) (archive : List (String × LLMEvent))
        (can : String) (c : DedupCand),
        assocFind (dedup_candidates force today archive) can = some c →
        (∃ kv, kv ∈ archive ∧ cand_skipped force today kv.2 = false ∧
          canonical_topic_name kv.1 kv.2 = can ∧ c = ⟨kv.1, extract_hot_score kv.2⟩) ∧
        (∀ kv, kv ∈ archive → cand_skipped force today kv.2 = false →
          canonical_topic_name kv.1 kv.2 = can → extract_hot_score kv.2 ≤ c.hot)) ∧
    (∀ l, List.Sorted (fun a b : DedupCand => b.hot ≤ a.hot) (sortByHotDesc l)) ∧
    pending_names false "2025-10-12" 2 scenarioArchive = ["A", "B"] ∧
    (∀ f, lookupEvent (run_llm_update f false "2025-10-12" 2 scenarioArchive) "C"
        = some eventC) := by
  have huntouched : ∀ (f : String → LLMEvent → LLMEvent) (force : Bool) (today : String)
      (topK : ℕ) (archive : List (String × LLMEvent)) (k : String),
      k ∉ pending_names force today topK archive →
      lookupEvent (run_llm_update f force today topK archive) k = lookupEvent archive k := by
    intro f force today topK archive k hk
    unfold run_llm_update
    exact lookup_map_not_mem _ f archive k hk
  have hpend : pending_names false "2025-10-12" 2 scenarioArchive = ["A", "B"] := by decide
  refine ⟨huntouched, ?_, sortByHotDesc_sorted, hpend, ?_⟩
  · intro force today archive can c h
    unfold dedup_candidates at h
    constructor
    · rcases dedup_fold_origin force today archive [] can c h with hnil | hexists
      · exact absurd hnil (by simp [assocFind])
      · exact hexists
    · intro kv hmem hskip hcan
      exact dedup_fold_dominates force today archive [] can c h kv hmem hskip hcan
  · intro f
    rw [huntouched f false "2025-10-12" 2 scenarioArchive "C" (by rw [hpend]; decide)]
    decide

/-- Claim C6 witness: in the Scenario-C archive with K = 2, "C" is not among
the dispatched names, so the run leaves its record exactly as it was. -/
theorem daily_llm_update_selection_witness :
    ("C" ∉ pending_names false "2025-10-12" 2 scenarioArchive) ∧
    lookupEvent (run_llm_update (fun _ e => { e with processing_status := some "succeeded" })
      false "2025-10-12" 2 scenarioArchive) "C" = lookupEvent scenarioArchive "C" := by
  have hnot : "C" ∉ pending_names false "2025-10-12" 2 scenarioArchive := by decide
  exact ⟨hnot, daily_llm_update_selection.1 _ false "2025-10-12" 2 scenarioArchive "C" hnot⟩
